import Mathlib

/-!
Verification of the bastion-schema validation engine.

The Rust sources under modules/bastion-schema are embedded shallowly:

* serde_json values become the inductive `Value`; JSON numbers stored as
  i64/u64 become `Value.numInt`, numbers stored as f64 become
  `Value.numFloat`.  f64 values and the f64 bounds carried by the
  min_value / max_value rules are modelled exactly over `Rat` (the wire
  format cannot carry NaN or infinities); the i64/u64 → f64 conversion
  performed by as_f64 is modelled exactly by `roundToF64` (round to
  nearest, ties to even), and the f64::MAX / f64::MIN sentinels used by
  `check_rule` appear as the exact rationals `f64MAX` / `f64MIN`.
* the external regex crate and chrono are not part of this repository;
  they are abstracted as the `Externals` record (a regex compilation
  oracle and an RFC 3339 recognizer), and the functions of validate.rs
  take this record as an extra argument.
* `Schema.fields` (a Rust HashMap) becomes an association list; key
  uniqueness, guaranteed by HashMap, is carried as a `Nodup` hypothesis
  where a statement needs it.
-/

/-- types.rs: the data type of a schema field. -/
inductive FieldType where
  | string
  | integer
  | float
  | boolean
  | dateTime
  | object
  | array
deriving DecidableEq, Repr

/-- types.rs: DateTimeFormat. -/
inductive DateTimeFormat where
  | iso8601
  | unixTimestamp
deriving DecidableEq, Repr

/-- types.rs: a validation rule that can be applied to a field.
The f64 payloads of MinValue/MaxValue are modelled exactly as rationals. -/
inductive ValidationRule where
  | pattern (p : String)
  | minLength (n : Nat)
  | maxLength (n : Nat)
  | minValue (x : Rat)
  | maxValue (x : Rat)
  | dateTimeFormat (f : DateTimeFormat)
deriving DecidableEq, Repr

/-- error.rs: ValidationError. -/
inductive ValidationError where
  | missingField (field : String)
  | invalidType (field : String) (expected : FieldType) (actual : FieldType)
  | ruleViolation (field : String) (rule : ValidationRule) (message : String)
  | nullValue (field : String)
deriving DecidableEq, Repr

/-- The field name carried by every error variant. -/
def ValidationError.fieldName : ValidationError → String
  | .missingField f => f
  | .invalidType f _ _ => f
  | .ruleViolation f _ _ => f
  | .nullValue f => f

/-- True for the three gate errors (missing / null / invalid type),
false for rule violations. -/
def ValidationError.isGate : ValidationError → Bool
  | .ruleViolation _ _ _ => false
  | _ => true

/-- schema.rs: FieldDefinition. -/
structure FieldDefinition where
  field_type : FieldType
  required : Bool
  nullable : Bool
  rules : List ValidationRule
deriving DecidableEq, Repr

/-- schema.rs: Schema; the HashMap of fields is an association list. -/
structure Schema where
  name : String
  fields : List (String × FieldDefinition)
deriving DecidableEq, Repr

/-- serde_json::Value.  Numbers stored as i64/u64 are `numInt`, numbers
stored as f64 are `numFloat` (exact rationals). -/
inductive Value where
  | null
  | bool (b : Bool)
  | numInt (n : Int)
  | numFloat (q : Rat)
  | str (s : String)
  | arr (items : List Value)
  | obj (entries : List (String × Value))

/-- First entry of an object with the given key. -/
def getEntry : List (String × Value) → String → Option Value
  | [], _ => none
  | (k, v) :: rest, key => if k = key then some v else getEntry rest key

/-- serde_json Value::get with a string index: a lookup on objects,
none on every other node. -/
def Value.get : Value → String → Option Value
  | .obj l, key => getEntry l key
  | _, _ => none

/-- Value::as_str. -/
def Value.asStr : Value → Option String
  | .str s => some s
  | _ => none

/-- Binade search for `roundToF64`: the number of halvings of a until it
drops below 2^54, so a lies in [2^(53+j), 2^(54+j)) for the result j.
The fuel bounds the recursion and is ample below the f64 overflow
threshold 2^1024 (every i64/u64 is far below it). -/
def f64Binade : Nat → Nat → Nat
  | 0, _ => 0
  | fuel + 1, a => if a < 2 ^ 54 then 0 else f64Binade fuel (a / 2) + 1

/-- Rust `n as f64` on an integer, computed exactly: integers of
magnitude up to 2^53 are preserved; beyond that the value is rounded to
the nearest multiple of the binade's spacing 2^k, ties to the even
multiple.  Faithful for every i64/u64-backed serde_json number. -/
def roundToF64 (n : Int) : Rat :=
  let a := n.natAbs
  if a ≤ 2 ^ 53 then (n : Rat)
  else
    let k := f64Binade 1100 a + 1
    let m := 2 ^ k
    let q := a / m
    let r := a % m
    let qr :=
      if 2 * r < m then q
      else if m < 2 * r then q + 1
      else if q % 2 = 0 then q else q + 1
    let rounded : Int := (qr : Int) * (m : Int)
    if n < 0 then ((-rounded : Int) : Rat) else ((rounded : Int) : Rat)

/-- Value::as_f64: an f64-backed number projects to its exact value; an
i64/u64-backed number is converted by `n as f64`, which rounds to the
nearest double (modelled exactly by `roundToF64`). -/
def Value.asF64 : Value → Option Rat
  | .numInt n => some (roundToF64 n)
  | .numFloat q => some q
  | _ => none

/-- The exact value of f64::MAX, used by check_rule as the default for
a non-numeric value under a min_value rule. -/
def f64MAX : Rat := (2 ^ 53 - 1) * 2 ^ 971

/-- The exact value of f64::MIN. -/
def f64MIN : Rat := -f64MAX

/-- Display of the exact rational standing for an f64 in a diagnostic
message.  For integral values this agrees with Rust's f64 Display
(e.g. 200.0 prints as "200"); the shortest-decimal form of non-integral
values is abstracted as num/den. -/
def ratRepr (q : Rat) : String :=
  if q.den = 1 then toString q.num else toString q.num ++ "/" ++ toString q.den

/-- Modelled from the spec: str::parse::<i64> on decimal digits with an
optional sign, used by the unix_timestamp date-time format. -/
def decDigits (cs : List Char) : Option Nat :=
  if cs.isEmpty then none
  else cs.foldlM (fun acc c => if c.isDigit then some (acc * 10 + (c.toNat - 48)) else none) 0

/-- Modelled from the spec: whether a string parses as a signed 64-bit
integer (unix_timestamp rule). -/
def parseI64 (s : String) : Bool :=
  match s.toList with
  | '-' :: cs => match decDigits cs with | some v => v ≤ 2 ^ 63 | none => false
  | '+' :: cs => match decDigits cs with | some v => v ≤ 2 ^ 63 - 1 | none => false
  | cs => match decDigits cs with | some v => v ≤ 2 ^ 63 - 1 | none => false

/-- Modelled from the spec: the external regex and chrono crates are not
part of this repository.  `regexCompile` returns the match predicate of
a regex source, or none when the source fails to compile
(Regex::new(..).ok()); `rfc3339Valid` is chrono's RFC 3339 recognizer. -/
structure Externals where
  regexCompile : String → Option (String → Bool)
  rfc3339Valid : String → Bool

/-- Debug rendering of a DateTimeFormat variant, as interpolated by
the {:?} in the date_time_format message. -/
def DateTimeFormat.debugName : DateTimeFormat → String
  | .iso8601 => "Iso8601"
  | .unixTimestamp => "UnixTimestamp"

/-- validate.rs json_type_name: the kind reported in diagnostics. -/
def json_type_name : Value → FieldType
  | .str _ => .string
  | .numFloat _ => .float
  | .numInt _ => .integer
  | .bool _ => .boolean
  | .arr _ => .array
  | .obj _ => .object
  | .null => .string

/-- The `matches` expression of check_type: does the value satisfy the
expected kind?  Integer-backed numbers also satisfy float; datetime is
structurally a string. -/
def type_matches : FieldType → Value → Bool
  | .string, .str _ => true
  | .integer, .numInt _ => true
  | .float, .numFloat _ => true
  | .float, .numInt _ => true
  | .boolean, .bool _ => true
  | .array, .arr _ => true
  | .object, .obj _ => true
  | .dateTime, .str _ => true
  | _, _ => false

/-- validate.rs check_type. -/
def check_type (field : String) (expected : FieldType) (value : Value) : Option ValidationError :=
  if type_matches expected value then none
  else some (.invalidType field expected (json_type_name value))

/-- validate.rs check_rule.  String lengths are UTF-8 byte lengths
(str::len); the `ext` record supplies the external regex and chrono
behaviour. -/
def check_rule (ext : Externals) (field : String) (rule : ValidationRule) (value : Value) :
    Option ValidationError :=
  match rule with
  | .pattern p =>
    let s := value.asStr.getD ""
    match ext.regexCompile p with
    | none => none
    | some re =>
      if !re s then
        some (.ruleViolation field (.pattern p)
          ("value '" ++ s ++ "' does not match pattern '" ++ p ++ "'"))
      else none
  | .minLength n =>
    let s := value.asStr.getD ""
    if s.utf8ByteSize < n then
      some (.ruleViolation field (.minLength n)
        ("length " ++ toString s.utf8ByteSize ++ " is less than minimum " ++ toString n))
    else none
  | .maxLength n =>
    let s := value.asStr.getD ""
    if s.utf8ByteSize > n then
      some (.ruleViolation field (.maxLength n)
        ("length " ++ toString s.utf8ByteSize ++ " exceeds maximum " ++ toString n))
    else none
  | .minValue x =>
    let n := value.asF64.getD f64MAX
    if n < x then
      some (.ruleViolation field (.minValue x)
        ("value " ++ ratRepr n ++ " is less than minimum " ++ ratRepr x))
    else none
  | .maxValue x =>
    let n := value.asF64.getD f64MIN
    if n > x then
      some (.ruleViolation field (.maxValue x)
        ("value " ++ ratRepr n ++ " exceeds maximum " ++ ratRepr x))
    else none
  | .dateTimeFormat fmt =>
    let s := value.asStr.getD ""
    let valid := match fmt with
      | .iso8601 => ext.rfc3339Valid s
      | .unixTimestamp => parseI64 s
    if !valid then
      some (.ruleViolation field (.dateTimeFormat fmt)
        ("value '" ++ s ++ "' is not a valid " ++ fmt.debugName))
    else none

/-- The body of validate's loop for one schema field: presence, then
nullability, then kind, then rules; a failing gate short-circuits only
within the field. -/
def validateField (ext : Externals) (field_name : String) (definition : FieldDefinition)
    (payload : Value) : List ValidationError :=
  match payload.get field_name with
  | none => if definition.required then [.missingField field_name] else []
  | some .null => if definition.nullable then [] else [.nullValue field_name]
  | some v =>
    match check_type field_name definition.field_type v with
    | some e => [e]
    | none => definition.rules.filterMap (fun r => check_rule ext field_name r v)

/-- The error list accumulated by validate's loop over the schema
fields. -/
def validate_errors (ext : Externals) (fields : List (String × FieldDefinition))
    (payload : Value) : List ValidationError :=
  fields.flatMap (fun fd => validateField ext fd.1 fd.2 payload)

instance {ε α : Type} [DecidableEq ε] [DecidableEq α] : DecidableEq (Except ε α) := fun a b =>
  match a, b with
  | .ok x, .ok y => if h : x = y then .isTrue (by rw [h]) else .isFalse (by simp [h])
  | .error x, .error y => if h : x = y then .isTrue (by rw [h]) else .isFalse (by simp [h])
  | .ok _, .error _ => .isFalse (by simp)
  | .error _, .ok _ => .isFalse (by simp)

/-- validate.rs validate: Ok when no errors were accumulated,
Err(errors) otherwise. -/
def validate (ext : Externals) (schema : Schema) (payload : Value) :
    Except (List ValidationError) Unit :=
  let errors := validate_errors ext schema.fields payload
  if errors.isEmpty then .ok () else .error errors

/-- Modelled from the spec: the standard semantics of the regex
`^[^@]+@[^@]+$` of the user schema — split at the first `@`. -/
def splitAtFirstAt : List Char → Option (List Char × List Char)
  | [] => none
  | c :: cs =>
    if c = '@' then some ([], cs)
    else (splitAtFirstAt cs).map (fun ab => (c :: ab.1, ab.2))

/-- Modelled from the spec: a string matches `^[^@]+@[^@]+$` exactly
when it is a@b with a and b nonempty and free of `@`. -/
def emailPatternMatches (s : String) : Bool :=
  match splitAtFirstAt s.toList with
  | some (a, b) => !a.isEmpty && !b.isEmpty && !b.contains '@'
  | none => false

/-- Modelled from the spec: the lowercase wire token of a field type
(serde rename_all = lowercase). -/
def FieldType.wireName : FieldType → String
  | .string => "string"
  | .integer => "integer"
  | .float => "float"
  | .boolean => "boolean"
  | .dateTime => "datetime"
  | .object => "object"
  | .array => "array"

/-- Modelled from the spec: parse a field-type token; unknown tokens are
a deserialization error. -/
def fieldTypeOfWire (s : String) : Option FieldType :=
  if s = "string" then some .string
  else if s = "integer" then some .integer
  else if s = "float" then some .float
  else if s = "boolean" then some .boolean
  else if s = "datetime" then some .dateTime
  else if s = "object" then some .object
  else if s = "array" then some .array
  else none

/-- Modelled from the spec: the snake_case wire token of a date-time
format. -/
def DateTimeFormat.wireName : DateTimeFormat → String
  | .iso8601 => "iso8601"
  | .unixTimestamp => "unix_timestamp"

/-- Modelled from the spec: parse a date-time-format token. -/
def dtFormatOfWire (s : String) : Option DateTimeFormat :=
  if s = "iso8601" then some .iso8601
  else if s = "unix_timestamp" then some .unixTimestamp
  else none

/-- Modelled from the spec: serde's adjacently tagged encoding of a
rule, an object with a "rule" tag and a "value" payload. -/
def serializeRule : ValidationRule → Value
  | .pattern p => .obj [("rule", .str "pattern"), ("value", .str p)]
  | .minLength n => .obj [("rule", .str "min_length"), ("value", .numInt n)]
  | .maxLength n => .obj [("rule", .str "max_length"), ("value", .numInt n)]
  | .minValue x => .obj [("rule", .str "min_value"), ("value", .numFloat x)]
  | .maxValue x => .obj [("rule", .str "max_value"), ("value", .numFloat x)]
  | .dateTimeFormat f => .obj [("rule", .str "date_time_format"), ("value", .str f.wireName)]

/-- A nonnegative integer node read back as a usize. -/
def Value.asNat : Value → Option Nat
  | .numInt n => if 0 ≤ n then some n.toNat else none
  | _ => none

/-- Modelled from the spec: deserialize one rule object; unknown tags or
ill-typed payloads are a deserialization error. -/
def deserializeRule (v : Value) : Option ValidationRule :=
  match v.get "rule", v.get "value" with
  | some (.str tag), some payload =>
    if tag = "pattern" then payload.asStr.map .pattern
    else if tag = "min_length" then payload.asNat.map .minLength
    else if tag = "max_length" then payload.asNat.map .maxLength
    else if tag = "min_value" then payload.asF64.map .minValue
    else if tag = "max_value" then payload.asF64.map .maxValue
    else if tag = "date_time_format" then (payload.asStr.bind dtFormatOfWire).map .dateTimeFormat
    else none
  | _, _ => none

/-- Modelled from the spec: deserialize a rule list element-wise,
failing on the first undecodable element. -/
def deserializeRules : List Value → Option (List ValidationRule)
  | [] => some []
  | v :: vs =>
    match deserializeRule v, deserializeRules vs with
    | some r, some rs => some (r :: rs)
    | _, _ => none

/-- Modelled from the spec: serialize a field definition per the wire
format of §6. -/
def serializeFieldDef (d : FieldDefinition) : Value :=
  .obj [ ("field_type", .str d.field_type.wireName),
         ("required", .bool d.required),
         ("nullable", .bool d.nullable),
         ("rules", .arr (d.rules.map serializeRule)) ]

/-- Modelled from the spec: deserialize a field definition. -/
def deserializeFieldDef (v : Value) : Option FieldDefinition :=
  match v.get "field_type", v.get "required", v.get "nullable", v.get "rules" with
  | some (.str t), some (.bool r), some (.bool nl), some (.arr rs) =>
    match fieldTypeOfWire t, deserializeRules rs with
    | some ft, some rules => some ⟨ft, r, nl, rules⟩
    | _, _ => none
  | _, _, _, _ => none

/-- Modelled from the spec: deserialize the field map element-wise. -/
def deserializeFields : List (String × Value) → Option (List (String × FieldDefinition))
  | [] => some []
  | (n, v) :: rest =>
    match deserializeFieldDef v, deserializeFields rest with
    | some d, some ds => some ((n, d) :: ds)
    | _, _ => none

/-- Modelled from the spec: serialize a schema (name plus the field
map) per the wire format of §6. -/
def serializeSchema (s : Schema) : Value :=
  .obj [ ("name", .str s.name),
         ("fields", .obj (s.fields.map (fun fd => (fd.1, serializeFieldDef fd.2)))) ]

/-- Modelled from the spec: deserialize a schema. -/
def deserializeSchema (v : Value) : Option Schema :=
  match v.get "name", v.get "fields" with
  | some (.str n), some (.obj fs) =>
    match deserializeFields fs with
    | some fields => some ⟨n, fields⟩
    | none => none
  | _, _ => none

/-- A trivial external world: every regex source fails to compile and
no string is a valid RFC 3339 timestamp. -/
def trivExt : Externals :=
  { regexCompile := fun _ => none, rfc3339Valid := fun _ => false }

/-- An external world that compiles exactly the email pattern of the
user schema. -/
def userExt : Externals :=
  { regexCompile := fun p =>
      if p = "^[^@]+@[^@]+$" then some emailPatternMatches else none,
    rfc3339Valid := fun _ => false }

/-- The user schema of the concrete scenarios: user_id integer required;
email string required with the email pattern; username string required
with min_length 3 / max_length 20; age integer nullable with
min_value 0 / max_value 120. -/
def userSchema : Schema :=
  { name := "user",
    fields :=
      [ ("user_id", ⟨.integer, true, false, []⟩),
        ("email", ⟨.string, true, false, [.pattern "^[^@]+@[^@]+$"]⟩),
        ("username", ⟨.string, true, false, [.minLength 3, .maxLength 20]⟩),
        ("age", ⟨.integer, false, true, [.minValue 0, .maxValue 120]⟩) ] }

/-- Scenario 5's payload. -/
def payload5 : Value :=
  .obj [ ("user_id", .str "x"), ("email", .str "bad"),
         ("username", .str "ab"), ("age", .numInt 200) ]

/-- A schema with a single required float field. -/
def scoreSchema : Schema := ⟨"score_event", [("score", ⟨.float, true, false, []⟩)]⟩

/-- A schema with one required string field carrying one pattern rule. -/
def patternOnly (f p : String) : Schema :=
  ⟨"only_pattern", [(f, ⟨.string, true, false, [.pattern p]⟩)]⟩

/-- A schema attaching a string rule (min_length) to an integer field. -/
def candidateSchema : Schema :=
  ⟨"candidate", [("n", ⟨.integer, true, false, [.minLength 3]⟩)]⟩

/-- A schema with an integer field bounded by max_value 2^53 + 4, a
bound exactly representable as an f64. -/
def bigIntSchema : Schema :=
  ⟨"big", [("n", ⟨.integer, true, false, [.maxValue 9007199254740996]⟩)]⟩

theorem check_type_eq_some {f : String} {t : FieldType} {v : Value} {e : ValidationError}
    (h : check_type f t v = some e) :
    type_matches t v = false ∧ e = .invalidType f t (json_type_name v) := by
  unfold check_type at h
  split at h
  · cases h
  · next hm => exact ⟨by simpa using hm, (Option.some.inj h).symm⟩

theorem check_type_eq_none {f : String} {t : FieldType} {v : Value}
    (h : check_type f t v = none) : type_matches t v = true := by
  unfold check_type at h
  split at h
  · assumption
  · cases h

theorem check_rule_eq_some {ext : Externals} {f : String} {r : ValidationRule} {v : Value}
    {e : ValidationError} (h : check_rule ext f r v = some e) :
    ∃ m, e = .ruleViolation f r m := by
  cases r <;> simp only [check_rule] at h <;>
    (repeat' split at h) <;> (cases h) <;> exact ⟨_, rfl⟩

theorem validateField_get_none {ext : Externals} {n : String} {d : FieldDefinition} {P : Value}
    (hg : P.get n = none) :
    validateField ext n d P = if d.required then [.missingField n] else [] := by
  unfold validateField; rw [hg]

theorem validateField_get_null {ext : Externals} {n : String} {d : FieldDefinition} {P : Value}
    (hg : P.get n = some .null) :
    validateField ext n d P = if d.nullable then [] else [.nullValue n] := by
  unfold validateField; rw [hg]

theorem validateField_get_some {ext : Externals} {n : String} {d : FieldDefinition} {P : Value}
    {v : Value} (hg : P.get n = some v) (hv : v ≠ .null) :
    validateField ext n d P =
      match check_type n d.field_type v with
      | some e => [e]
      | none => d.rules.filterMap (fun r => check_rule ext n r v) := by
  unfold validateField; rw [hg]
  cases v
  · exact absurd rfl hv
  all_goals rfl

theorem validateField_shape (ext : Externals) (n : String) (d : FieldDefinition) (P : Value) :
    validateField ext n d P = [] ∨
    validateField ext n d P = [.missingField n] ∨
    validateField ext n d P = [.nullValue n] ∨
    (∃ v, P.get n = some v ∧ v ≠ .null ∧ type_matches d.field_type v = false ∧
      validateField ext n d P = [.invalidType n d.field_type (json_type_name v)]) ∨
    (∃ v, P.get n = some v ∧ v ≠ .null ∧ type_matches d.field_type v = true ∧
      validateField ext n d P = d.rules.filterMap (fun r => check_rule ext n r v)) := by
  cases hg : P.get n with
  | none =>
    rw [validateField_get_none hg]
    by_cases hr : d.required <;> simp [hr]
  | some v =>
    by_cases hv : v = Value.null
    · subst hv
      rw [validateField_get_null hg]
      by_cases hn : d.nullable <;> simp [hn]
    · rw [validateField_get_some hg hv]
      cases hc : check_type n d.field_type v with
      | some e =>
        obtain ⟨hm, he⟩ := check_type_eq_some hc
        subst he
        exact Or.inr (Or.inr (Or.inr (Or.inl ⟨v, rfl, hv, hm, rfl⟩)))
      | none =>
        exact Or.inr (Or.inr (Or.inr (Or.inr ⟨v, rfl, hv, check_type_eq_none hc, rfl⟩)))

theorem mem_validateField_fieldName {ext : Externals} {n : String} {d : FieldDefinition}
    {P : Value} {e : ValidationError} (h : e ∈ validateField ext n d P) :
    e.fieldName = n := by
  rcases validateField_shape ext n d P with hs | hs | hs | ⟨v, _, _, _, hs⟩ | ⟨v, _, _, _, hs⟩ <;>
      rw [hs] at h
  · cases h
  · simp at h; rw [h]; rfl
  · simp at h; rw [h]; rfl
  · simp at h; rw [h]; rfl
  · obtain ⟨r, _, hr⟩ := List.mem_filterMap.mp h
    obtain ⟨m, hm⟩ := check_rule_eq_some hr
    rw [hm]; rfl

theorem validateField_rules_not_gate {ext : Externals} {n : String} {d : FieldDefinition}
    {v : Value} {e : ValidationError}
    (h : e ∈ d.rules.filterMap (fun r => check_rule ext n r v)) : e.isGate = false := by
  obtain ⟨r, _, hr⟩ := List.mem_filterMap.mp h
  obtain ⟨m, hm⟩ := check_rule_eq_some hr
  rw [hm]; rfl

theorem validateField_gate_filter_length (ext : Externals) (n : String) (d : FieldDefinition)
    (P : Value) :
    ((validateField ext n d P).filter (fun e => e.isGate)).length ≤ 1 := by
  rcases validateField_shape ext n d P with hs | hs | hs | ⟨v, _, _, _, hs⟩ | ⟨v, _, _, _, hs⟩ <;>
      rw [hs]
  · simp
  · simp [ValidationError.isGate]
  · simp [ValidationError.isGate]
  · simp [ValidationError.isGate]
  · rw [List.filter_eq_nil_iff.mpr (fun e he hg => by
      rw [validateField_rules_not_gate he] at hg; cases hg)]
    simp

theorem validateField_rv_gate_nil {ext : Externals} {n : String} {d : FieldDefinition}
    {P : Value} {f : String} {r : ValidationRule} {m : String}
    (h : ValidationError.ruleViolation f r m ∈ validateField ext n d P) :
    (validateField ext n d P).filter (fun e => e.isGate) = [] := by
  rcases validateField_shape ext n d P with hs | hs | hs | ⟨v, _, _, _, hs⟩ | ⟨v, _, _, _, hs⟩ <;>
      rw [hs] at h ⊢
  · cases h
  · simp at h
  · simp at h
  · simp at h
  · exact List.filter_eq_nil_iff.mpr (fun e he hg => by
      rw [validateField_rules_not_gate he] at hg; cases hg)

theorem validate_errors_nil (ext : Externals) (P : Value) :
    validate_errors ext [] P = [] := rfl

theorem validate_errors_cons (ext : Externals) (n : String) (d : FieldDefinition)
    (l : List (String × FieldDefinition)) (P : Value) :
    validate_errors ext ((n, d) :: l) P = validateField ext n d P ++ validate_errors ext l P := by
  simp [validate_errors]

theorem mem_validate_errors_fieldName {ext : Externals}
    {l : List (String × FieldDefinition)} {P : Value} {e : ValidationError}
    (h : e ∈ validate_errors ext l P) : e.fieldName ∈ l.map Prod.fst := by
  obtain ⟨⟨n, d⟩, hmem, he⟩ := List.mem_flatMap.mp h
  exact List.mem_map.mpr ⟨(n, d), hmem, (mem_validateField_fieldName he).symm⟩

theorem gate_ordering_aux (ext : Externals) (P : Value) (f : String) :
    ∀ l : List (String × FieldDefinition), (l.map Prod.fst).Nodup →
    ((validate_errors ext l P).filter (fun e => e.isGate && (e.fieldName == f))).length ≤ 1 ∧
    (∀ r m, ValidationError.ruleViolation f r m ∈ validate_errors ext l P →
      (validate_errors ext l P).filter (fun e => e.isGate && (e.fieldName == f)) = []) := by
  intro l
  induction l with
  | nil => intro _; simp [validate_errors_nil]
  | cons hd tl ih =>
    obtain ⟨n, d⟩ := hd
    intro hkeys
    rw [List.map_cons, List.nodup_cons] at hkeys
    obtain ⟨hn, hnd⟩ := hkeys
    obtain ⟨ihlen, ihrv⟩ := ih hnd
    rw [validate_errors_cons, List.filter_append]
    by_cases hnf : n = f
    · subst hnf
      have htail : (validate_errors ext tl P).filter
          (fun e => e.isGate && (e.fieldName == n)) = [] := by
        refine List.filter_eq_nil_iff.mpr (fun e he => ?_)
        have hmem := mem_validate_errors_fieldName he
        have hne : e.fieldName ≠ n := fun hEq => hn (hEq ▸ hmem)
        simp [hne]
      have hhead : (validateField ext n d P).filter
          (fun e => e.isGate && (e.fieldName == n)) =
          (validateField ext n d P).filter (fun e => e.isGate) := by
        refine List.filter_congr (fun e he => ?_)
        rw [mem_validateField_fieldName he]
        simp
      rw [htail, hhead]
      constructor
      · simpa using validateField_gate_filter_length ext n d P
      · intro r m hm
        rcases List.mem_append.mp hm with hm | hm
        · rw [validateField_rv_gate_nil hm]
          simp
        · have := mem_validate_errors_fieldName hm
          exact absurd this hn
    · have hhead : (validateField ext n d P).filter
          (fun e => e.isGate && (e.fieldName == f)) = [] := by
        refine List.filter_eq_nil_iff.mpr (fun e he => ?_)
        have : e.fieldName ≠ f := by rw [mem_validateField_fieldName he]; exact hnf
        simp [this]
      rw [hhead]
      constructor
      · simpa using ihlen
      · intro r m hm
        rcases List.mem_append.mp hm with hm | hm
        · have := mem_validateField_fieldName hm
          exact absurd this.symm hnf
        · simpa using ihrv r m hm

theorem json_type_name_ne {t : FieldType} {v : Value} (hv : v ≠ .null)
    (hm : type_matches t v = false) : json_type_name v ≠ t := by
  cases v <;> cases t <;> simp_all [type_matches, json_type_name]

theorem json_type_name_matches {t : FieldType} {v : Value} (hv : v ≠ .null)
    (hc : json_type_name v = t) : type_matches t v = true := by
  cases v <;> cases t <;> simp_all [type_matches, json_type_name]

theorem invalidType_mem_validateField {ext : Externals} {n : String} {d : FieldDefinition}
    {P : Value} {f' : String} {ex ac : FieldType}
    (h : ValidationError.invalidType f' ex ac ∈ validateField ext n d P) : ac ≠ ex := by
  rcases validateField_shape ext n d P with hs | hs | hs | ⟨v, _, hv, hm, hs⟩ | ⟨v, _, _, _, hs⟩ <;>
      rw [hs] at h
  · cases h
  · simp at h
  · simp at h
  · simp at h
    obtain ⟨-, hex, hac⟩ := h
    subst hex; subst hac
    exact json_type_name_ne hv hm
  · have := validateField_rules_not_gate h
    simp [ValidationError.isGate] at this

theorem invalidType_mem_errors {ext : Externals} {l : List (String × FieldDefinition)}
    {P : Value} {f' : String} {ex ac : FieldType}
    (h : ValidationError.invalidType f' ex ac ∈ validate_errors ext l P) : ac ≠ ex := by
  obtain ⟨⟨n, d⟩, _, he⟩ := List.mem_flatMap.mp h
  exact invalidType_mem_validateField he

theorem float_int_aux (ext : Externals) (P : Value) (f : String) (i : Int)
    (e a : FieldType) :
    ∀ l : List (String × FieldDefinition), (l.map Prod.fst).Nodup →
    ∀ d : FieldDefinition, (f, d) ∈ l → d.field_type = .float →
    P.get f = some (.numInt i) →
    ValidationError.invalidType f e a ∉ validate_errors ext l P := by
  intro l
  induction l with
  | nil => intro _ d hd; cases hd
  | cons hd tl ih =>
    obtain ⟨n, d'⟩ := hd
    intro hkeys d hmem hft hget
    rw [List.map_cons, List.nodup_cons] at hkeys
    obtain ⟨hn, hnd⟩ := hkeys
    rw [validate_errors_cons]
    intro hcontra
    rcases List.mem_append.mp hcontra with hc | hc
    · rcases List.mem_cons.mp hmem with hh | hh
      · -- the head entry is the float field itself
        obtain ⟨hnf, hd⟩ : n = f ∧ d' = d := by
          have := Prod.mk.injEq n d' f d ▸ hh.symm
          exact ⟨this.1, this.2⟩
        subst hnf; subst hd
        rw [validateField_get_some hget (by simp)] at hc
        rw [hft] at hc
        have : check_type n FieldType.float (Value.numInt i) = none := rfl
        rw [this] at hc
        have := validateField_rules_not_gate hc
        simp [ValidationError.isGate] at this
      · -- the float field lives in the tail, so the head key differs from f
        have hfk : f ∈ tl.map Prod.fst := List.mem_map.mpr ⟨(f, d), hh, rfl⟩
        have hnf : n ≠ f := fun hEq => hn (hEq ▸ hfk)
        have := mem_validateField_fieldName hc
        simp [ValidationError.fieldName] at this
        exact hnf this.symm
    · rcases List.mem_cons.mp hmem with hh | hh
      · obtain ⟨hnf, -⟩ : n = f ∧ d' = d := by
          have := Prod.mk.injEq n d' f d ▸ hh.symm
          exact ⟨this.1, this.2⟩
        subst hnf
        exact hn (mem_validate_errors_fieldName hc)
      · exact ih hnd d hh hft hget hc

theorem getEntry_of_not_mem {l : List (String × Value)} {n : String}
    (h : n ∉ l.map Prod.fst) : getEntry l n = none := by
  induction l with
  | nil => rfl
  | cons hd tl ih =>
    obtain ⟨k, v⟩ := hd
    simp only [List.map_cons, List.mem_cons] at h
    push_neg at h
    simp only [getEntry, if_neg (fun hEq : k = n => h.1 hEq.symm)]
    exact ih h.2

theorem getEntry_append_of_not_mem {base extra : List (String × Value)} {n : String}
    (h : n ∉ extra.map Prod.fst) : getEntry (base ++ extra) n = getEntry base n := by
  induction base with
  | nil => simpa [getEntry] using getEntry_of_not_mem h
  | cons hd tl ih =>
    obtain ⟨k, v⟩ := hd
    by_cases hk : k = n <;> simp [getEntry, hk, ih]

theorem validateField_get_congr {ext : Externals} {n : String} {d : FieldDefinition}
    {P Q : Value} (h : P.get n = Q.get n) :
    validateField ext n d P = validateField ext n d Q := by
  unfold validateField; rw [h]

theorem validate_errors_get_congr {ext : Externals} {l : List (String × FieldDefinition)}
    {P Q : Value} (h : ∀ nd ∈ l, P.get nd.1 = Q.get nd.1) :
    validate_errors ext l P = validate_errors ext l Q := by
  induction l with
  | nil => rfl
  | cons hd tl ih =>
    rw [validate_errors_cons, validate_errors_cons,
      validateField_get_congr (h hd (List.mem_cons_self hd tl)),
      ih (fun nd hnd => h nd (List.mem_cons_of_mem hd hnd))]

theorem validate_errors_append_extra {ext : Externals} {S : Schema}
    {base extra : List (String × Value)}
    (h : ∀ n ∈ S.fields.map Prod.fst, n ∉ extra.map Prod.fst) :
    validate_errors ext S.fields (Value.obj (base ++ extra)) =
      validate_errors ext S.fields (Value.obj base) := by
  refine validate_errors_get_congr (fun nd hnd => ?_)
  show getEntry (base ++ extra) nd.1 = getEntry base nd.1
  exact getEntry_append_of_not_mem (h nd.1 (List.mem_map.mpr ⟨nd, hnd, rfl⟩))

theorem check_rule_minValue_none_iff (ext : Externals) (f : String) (x q : Rat) (v : Value)
    (h : v.asF64 = some q) : (check_rule ext f (.minValue x) v = none ↔ x ≤ q) := by
  simp only [check_rule, h, Option.getD_some]
  split
  · next hlt => exact iff_of_false (by simp) (not_le.mpr hlt)
  · next hge => exact iff_of_true rfl (not_lt.mp hge)

theorem check_rule_maxValue_none_iff (ext : Externals) (f : String) (x q : Rat) (v : Value)
    (h : v.asF64 = some q) : (check_rule ext f (.maxValue x) v = none ↔ q ≤ x) := by
  simp only [check_rule, h, Option.getD_some]
  split
  · next hgt => exact iff_of_false (by simp) (not_le.mpr hgt)
  · next hle => exact iff_of_true rfl (not_lt.mp hle)

theorem f64MIN_le_f64MAX : f64MIN ≤ f64MAX := by
  unfold f64MIN f64MAX; norm_num

theorem two_le_f64MAX : (2 : Rat) ≤ f64MAX := by
  unfold f64MAX; norm_num

theorem f64MIN_le_two : f64MIN ≤ (2 : Rat) := by
  unfold f64MIN f64MAX; norm_num

theorem check_rule_minValue_non_numeric (ext : Externals) (f : String) (x : Rat) (v : Value)
    (hq : v.asF64 = none) (hx : x ≤ f64MAX) :
    check_rule ext f (.minValue x) v = none := by
  simp only [check_rule, hq, Option.getD_none]
  exact if_neg (not_lt.mpr hx)

theorem check_rule_maxValue_non_numeric (ext : Externals) (f : String) (x : Rat) (v : Value)
    (hq : v.asF64 = none) (hx : f64MIN ≤ x) :
    check_rule ext f (.maxValue x) v = none := by
  simp only [check_rule, hq, Option.getD_none]
  exact if_neg (not_lt.mpr hx)

theorem check_rule_maxLength_non_string (ext : Externals) (f : String) (n : Nat) (v : Value)
    (hs : v.asStr = none) : check_rule ext f (.maxLength n) v = none := by
  simp only [check_rule, hs, Option.getD_none]
  exact if_neg (by simp [String.utf8ByteSize])

theorem check_rule_minLength_non_string (ext : Externals) (f : String) (n : Nat) (v : Value)
    (hs : v.asStr = none) (hn : 0 < n) :
    check_rule ext f (.minLength n) v =
      some (.ruleViolation f (.minLength n)
        ("length 0 is less than minimum " ++ toString n)) := by
  simp only [check_rule, hs, Option.getD_none]
  rw [if_pos (by simpa [String.utf8ByteSize] using hn)]
  rfl

theorem check_rule_pattern_non_string (ext : Externals) (f : String) (p : String) (v : Value)
    (hs : v.asStr = none) :
    check_rule ext f (.pattern p) v = check_rule ext f (.pattern p) (Value.str "") := by
  have h1 : (Value.str "").asStr = some "" := rfl
  simp only [check_rule, hs, h1, Option.getD_none, Option.getD_some]

theorem dtFormat_roundtrip (f : DateTimeFormat) : dtFormatOfWire f.wireName = some f := by
  cases f <;> rfl

theorem fieldType_roundtrip (t : FieldType) : fieldTypeOfWire t.wireName = some t := by
  cases t <;> rfl

theorem rule_roundtrip (r : ValidationRule) : deserializeRule (serializeRule r) = some r := by
  cases r <;>
    simp [serializeRule, deserializeRule, Value.get, getEntry, Value.asStr, Value.asNat,
      Value.asF64, dtFormat_roundtrip]

theorem rules_roundtrip (rs : List ValidationRule) :
    deserializeRules (rs.map serializeRule) = some rs := by
  induction rs with
  | nil => rfl
  | cons r rs ih => simp [deserializeRules, rule_roundtrip, ih]

theorem fieldDef_roundtrip (d : FieldDefinition) :
    deserializeFieldDef (serializeFieldDef d) = some d := by
  obtain ⟨ft, r, nl, rules⟩ := d
  simp [serializeFieldDef, deserializeFieldDef, Value.get, getEntry, fieldType_roundtrip,
    rules_roundtrip]

theorem fields_roundtrip (fs : List (String × FieldDefinition)) :
    deserializeFields (fs.map (fun fd => (fd.1, serializeFieldDef fd.2))) = some fs := by
  induction fs with
  | nil => rfl
  | cons fd fs ih => simp [deserializeFields, fieldDef_roundtrip, ih]

/-- C1: for every schema (whose field keys are distinct, as a HashMap
guarantees) and payload, and every field name f, the error list built by
validate holds at most one of MissingField / NullValue / InvalidType for
f, and if it holds a RuleViolation for f it holds none of those three
for f. -/
theorem validate_gate_ordering (ext : Externals) (S : Schema) (P : Value) (f : String)
    (hkeys : (S.fields.map Prod.fst).Nodup) :
    ((validate_errors ext S.fields P).filter
        (fun e => e.isGate && (e.fieldName == f))).length ≤ 1 ∧
    (∀ r m, ValidationError.ruleViolation f r m ∈ validate_errors ext S.fields P →
      (validate_errors ext S.fields P).filter
        (fun e => e.isGate && (e.fieldName == f)) = []) :=
  gate_ordering_aux ext P f S.fields hkeys

theorem validate_gate_ordering_check :
    ((validate_errors userExt userSchema.fields payload5).filter
        (fun e => e.isGate && (e.fieldName == "email"))).length ≤ 1 ∧
    (validate_errors userExt userSchema.fields payload5).filter
        (fun e => e.isGate && (e.fieldName == "email")) = [] := by
  have h := validate_gate_ordering userExt userSchema payload5 "email" (by decide)
  exact ⟨h.1, h.2 (.pattern "^[^@]+@[^@]+$")
    "value 'bad' does not match pattern '^[^@]+@[^@]+$'" (by decide)⟩

/-- C2: on the user schema, scenario 5's payload yields failure with
exactly the four errors InvalidType(user_id), RuleViolation(email,
pattern), RuleViolation(username, min_length), RuleViolation(age,
max_value), and no other error. -/
theorem validate_scenario5_exact_errors :
    validate userExt userSchema payload5 = .error
      [ .invalidType "user_id" .integer .string,
        .ruleViolation "email" (.pattern "^[^@]+@[^@]+$")
          "value 'bad' does not match pattern '^[^@]+@[^@]+$'",
        .ruleViolation "username" (.minLength 3) "length 2 is less than minimum 3",
        .ruleViolation "age" (.maxValue 120) "value 200 exceeds maximum 120" ] := by
  decide

/-- C3 is refuted by the code: an integer value that passes the type
check of an integer field still triggers the field's min_length rule
(the value is coerced to "", whose length 0 is below the bound), so a
rule of an incompatible kind is not a no-op. -/
theorem rule_kind_mismatch_counterexample :
    check_type "n" .integer (.numInt 5) = none ∧
    validate trivExt candidateSchema (.obj [("n", .numInt 5)]) =
      .error [.ruleViolation "n" (.minLength 3) "length 0 is less than minimum 3"] := by
  decide

/-- C3 (amended): a rule applied to a value of an incompatible kind
first coerces the value to a default ("" for string rules, the f64
sentinels for numeric rules): min_value / max_value with a finite f64
bound and max_length are indeed no-ops, but min_length with a positive
bound reports a violation of length 0, and pattern behaves as on the
empty string. -/
theorem check_rule_kind_mismatch (ext : Externals) (f p : String) (v : Value)
    (x : Rat) (n : Nat) :
    (v.asF64 = none → x ≤ f64MAX → check_rule ext f (.minValue x) v = none) ∧
    (v.asF64 = none → f64MIN ≤ x → check_rule ext f (.maxValue x) v = none) ∧
    (v.asStr = none → check_rule ext f (.maxLength n) v = none) ∧
    (v.asStr = none → 0 < n → check_rule ext f (.minLength n) v =
      some (.ruleViolation f (.minLength n)
        ("length 0 is less than minimum " ++ toString n))) ∧
    (v.asStr = none →
      check_rule ext f (.pattern p) v = check_rule ext f (.pattern p) (.str "")) :=
  ⟨fun hq hx => check_rule_minValue_non_numeric ext f x v hq hx,
   fun hq hx => check_rule_maxValue_non_numeric ext f x v hq hx,
   fun hs => check_rule_maxLength_non_string ext f n v hs,
   fun hs hn => check_rule_minLength_non_string ext f n v hs hn,
   fun hs => check_rule_pattern_non_string ext f p v hs⟩

theorem check_rule_kind_mismatch_check :
    check_rule trivExt "g" (.minValue 2) (.str "a") = none ∧
    check_rule trivExt "g" (.maxValue 2) (.str "a") = none ∧
    check_rule trivExt "g" (.maxLength 3) (.numInt 7) = none ∧
    check_rule trivExt "g" (.minLength 3) (.numInt 7) =
      some (.ruleViolation "g" (.minLength 3)
        ("length 0 is less than minimum " ++ toString 3)) ∧
    check_rule trivExt "g" (.pattern "[") (.numInt 7) =
      check_rule trivExt "g" (.pattern "[") (.str "") := by
  have h1 := check_rule_kind_mismatch trivExt "g" "[" (.str "a") 2 3
  have h2 := check_rule_kind_mismatch trivExt "g" "[" (.numInt 7) 2 3
  exact ⟨h1.1 rfl two_le_f64MAX, h1.2.1 rfl f64MIN_le_two,
    h2.2.2.1 rfl, h2.2.2.2.1 rfl (by decide), h2.2.2.2.2 rfl⟩

/-- C4: a required field typed float accepts an integer-backed numeric
node: validate produces no InvalidType for that field. -/
theorem float_field_accepts_integer (ext : Externals) (S : Schema) (P : Value)
    (f : String) (d : FieldDefinition) (i : Int) (e a : FieldType)
    (hkeys : (S.fields.map Prod.fst).Nodup) (hmem : (f, d) ∈ S.fields)
    (hft : d.field_type = .float) (_hreq : d.required = true)
    (hget : P.get f = some (.numInt i)) :
    ValidationError.invalidType f e a ∉ validate_errors ext S.fields P :=
  float_int_aux ext P f i e a S.fields hkeys d hmem hft hget

theorem float_field_accepts_integer_check :
    ValidationError.invalidType "score" .float .integer ∉
      validate_errors trivExt scoreSchema.fields (.obj [("score", .numInt 3)]) :=
  float_field_accepts_integer trivExt scoreSchema (.obj [("score", .numInt 3)])
    "score" ⟨.float, true, false, []⟩ 3 .float .integer
    (by decide) (by decide) rfl rfl rfl

/-- C5: payload fields unknown to the schema are silently ignored —
extending a payload with entries whose keys are not schema keys does not
change the result of validate. -/
theorem extra_fields_ignored (ext : Externals) (S : Schema)
    (base extra : List (String × Value))
    (h : ∀ n ∈ S.fields.map Prod.fst, n ∉ extra.map Prod.fst) :
    validate ext S (.obj (base ++ extra)) = validate ext S (.obj base) := by
  unfold validate
  rw [validate_errors_append_extra h]

theorem extra_fields_ignored_check :
    validate userExt userSchema (.obj ([ ("user_id", .numInt 1), ("email", .str "a@b"),
        ("username", .str "carlos"), ("age", .numInt 30) ] ++ [("note", .bool true)])) =
      validate userExt userSchema (.obj [ ("user_id", .numInt 1), ("email", .str "a@b"),
        ("username", .str "carlos"), ("age", .numInt 30) ]) :=
  extra_fields_ignored userExt userSchema _ _ (by decide)

/-- C6: a pattern rule whose regex source fails to compile silently
passes on every value, and validate succeeds on a present, non-null
string value of such a field — the compile failure surfaces through no
other channel. -/
theorem pattern_compile_failure_silent (ext : Externals) (p : String)
    (hc : ext.regexCompile p = none) (f s : String) (v : Value) :
    check_rule ext f (.pattern p) v = none ∧
    validate ext (patternOnly f p) (.obj [(f, .str s)]) = .ok () := by
  refine ⟨by simp [check_rule, hc], ?_⟩
  have h2 : check_rule ext f (.pattern p) (.str s) = none := by simp [check_rule, hc]
  simp [validate, validate_errors, patternOnly, validateField, Value.get, getEntry,
    check_type, type_matches, h2]

theorem pattern_compile_failure_silent_check :
    check_rule trivExt "f" (.pattern "[") (.str "x") = none ∧
    validate trivExt (patternOnly "f" "[") (.obj [("f", .str "x")]) = .ok () :=
  pattern_compile_failure_silent trivExt "[" rfl "f" "x" (.str "x")

/-- C7: deserializing the serialization of any schema yields the schema
back — round-trip identity over the wire format, covering field types,
required and nullable flags and the ordered rule lists. -/
theorem schema_round_trip (S : Schema) :
    deserializeSchema (serializeSchema S) = some S := by
  obtain ⟨n, fs⟩ := S
  simp [serializeSchema, deserializeSchema, Value.get, getEntry, fields_roundtrip]

/-- C8 is refuted by the code: as_f64 converts an i64/u64-backed number
with `as f64`, rounding to the nearest double before the comparison, so
the integer 2^53 + 5, strictly above the bound max_value(2^53 + 4),
rounds down onto the bound (ties to even) and passes — no RuleViolation,
also through validate. -/
theorem value_bounds_rounding_counterexample :
    (9007199254740996 : Rat) < ((9007199254740997 : Int) : Rat) ∧
    check_rule trivExt "n" (.maxValue 9007199254740996) (.numInt 9007199254740997) = none ∧
    validate trivExt bigIntSchema (.obj [("n", .numInt 9007199254740997)]) = .ok () := by
  decide

/-- C8 (amended): min_value and max_value bounds are inclusive over the
value's f64 projection — the value as converted by as_f64, which is
exact for f64-backed numbers and for integers of magnitude up to 2^53
and rounds to the nearest double beyond — so the rule passes exactly
when that projection is on the allowed side of the bound, bound
included; an integer strictly beyond a bound may round across it and
pass. -/
theorem value_bounds_inclusive (ext : Externals) (f : String) (x q : Rat) (v : Value)
    (h : v.asF64 = some q) :
    (check_rule ext f (.minValue x) v = none ↔ x ≤ q) ∧
    (check_rule ext f (.maxValue x) v = none ↔ q ≤ x) :=
  ⟨check_rule_minValue_none_iff ext f x q v h,
   check_rule_maxValue_none_iff ext f x q v h⟩

theorem value_bounds_inclusive_check :
    (check_rule trivExt "age" (.minValue 0) (.numInt 0) = none ↔ (0 : Rat) ≤ 0) ∧
    (check_rule trivExt "age" (.maxValue 0) (.numInt 0) = none ↔ (0 : Rat) ≤ 0) :=
  value_bounds_inclusive trivExt "age" 0 0 (.numInt 0) (by decide)

/-- C9: every error returned by validate names a field declared in the
schema. -/
theorem errors_name_declared_fields (ext : Externals) (S : Schema) (P : Value)
    (l : List ValidationError) (e : ValidationError)
    (hv : validate ext S P = .error l) (he : e ∈ l) :
    e.fieldName ∈ S.fields.map Prod.fst := by
  simp only [validate] at hv
  split at hv
  · cases hv
  · cases hv
    exact mem_validate_errors_fieldName he

theorem errors_name_declared_fields_check :
    (ValidationError.ruleViolation "age" (.maxValue 120)
      "value 200 exceeds maximum 120").fieldName ∈ userSchema.fields.map Prod.fst :=
  errors_name_declared_fields userExt userSchema payload5
    [ .invalidType "user_id" .integer .string,
      .ruleViolation "email" (.pattern "^[^@]+@[^@]+$")
        "value 'bad' does not match pattern '^[^@]+@[^@]+$'",
      .ruleViolation "username" (.minLength 3) "length 2 is less than minimum 3",
      .ruleViolation "age" (.maxValue 120) "value 200 exceeds maximum 120" ]
    (.ruleViolation "age" (.maxValue 120) "value 200 exceeds maximum 120")
    (by decide) (by decide)

/-- C10: every InvalidType error produced by validate reports an actual
kind different from the expected kind, and the diagnostic classifier
agrees with the match predicate: a non-null value whose classified kind
equals the expected kind passes the type gate. -/
theorem invalid_type_actual_ne_expected (ext : Externals) (S : Schema) (P : Value)
    (f' : String) (ex ac : FieldType) (g : String) (t : FieldType) (v : Value) :
    (ValidationError.invalidType f' ex ac ∈ validate_errors ext S.fields P → ac ≠ ex) ∧
    (v ≠ .null → json_type_name v = t → check_type g t v = none) :=
  ⟨fun h => invalidType_mem_errors h,
   fun hv hc => by unfold check_type; rw [if_pos (json_type_name_matches hv hc)]⟩

theorem invalid_type_actual_ne_expected_check :
    (FieldType.string ≠ FieldType.integer) ∧
    check_type "user_id" .string (.str "x") = none := by
  have h := invalid_type_actual_ne_expected userExt userSchema payload5
    "user_id" .integer .string "user_id" .string (.str "x")
  exact ⟨h.1 (by decide), h.2 (by simp) rfl⟩
